import Mathlib

/-!
Verification of the PDF data-extraction pipeline in `src/main.py`.

The script is a single-pass batch pipeline: extract the text of a PDF page by
page, send it to a remote LLM, strictly JSON-decode the response, filter the
resulting record, and persist it.  The development below is a shallow embedding
of that script:

* Python/JSON values are modelled by the inductive type `Json`; a parsed
  top-level record (a Python `dict`) is an insertion-ordered association list
  `PyDict`, as Python dictionaries are.
* Pure Python string operations (`str.strip`, `str.lower`, `len`) are modelled
  by executable Lean functions on `String`, restricted to the ASCII whitespace
  and case range exercised by this pipeline.
* `json.loads` / `json.dump(..., indent=4, ensure_ascii=False)` are modelled by
  an executable strict recursive-descent parser and printer over `List Char`,
  covering the fragment of JSON this pipeline produces and consumes (integer
  numerals; no float literals, no `NaN`/`Infinity`, no surrogate-pair escapes).
  A decode error (`json.JSONDecodeError`) is modelled by the parser returning
  `none`.
* Effects are made explicit: a caught exception around an I/O or network call
  becomes an `Option` input, and "the remote call was made" / "the output file
  was written" become instrumentation fields threaded through the orchestrator
  model.
-/

namespace DataExtraction

/-- JSON values as produced by the script's strict decoding step.  Numbers are
restricted to integers: every numeric literal this pipeline writes is an
integer, and no claim exercises float literals.  Objects are insertion-ordered
key/value lists, which is exactly what a Python `dict` built by `json.loads`
is. -/
inductive Json where
  | null : Json
  | bool (b : Bool) : Json
  | num (n : Int) : Json
  | str (s : String) : Json
  | arr (elems : List Json) : Json
  | obj (fields : List (String × Json)) : Json
  deriving Repr

/-- A parsed top-level record: the association list behind a Python `dict`. -/
abbrev PyDict := List (String × Json)

/-! Equality of `Json` values is decided by a hand-written structural
comparison: the automatic `DecidableEq` handler does not apply to an inductive
nested through `List`, so the comparison recurses through the two list
positions in a mutual group, and a mutual induction shows it decides `Eq`. -/

mutual

def jsonBeq : Json → Json → Bool
  | Json.null, Json.null => true
  | Json.bool a, Json.bool b => a == b
  | Json.num a, Json.num b => a == b
  | Json.str a, Json.str b => a == b
  | Json.arr a, Json.arr b => jsonBeqElems a b
  | Json.obj a, Json.obj b => jsonBeqPairs a b
  | _, _ => false

def jsonBeqElems : List Json → List Json → Bool
  | [], [] => true
  | a :: as, b :: bs => jsonBeq a b && jsonBeqElems as bs
  | _, _ => false

def jsonBeqPairs : List (String × Json) → List (String × Json) → Bool
  | [], [] => true
  | (k, v) :: ps, (l, w) :: qs => k == l && jsonBeq v w && jsonBeqPairs ps qs
  | _, _ => false

end

mutual

/-- The structural comparison answers `true` exactly on equal values. -/
theorem jsonBeq_eq : ∀ a b : Json, jsonBeq a b = true ↔ a = b
  | Json.null, Json.null => by simp [jsonBeq]
  | Json.bool _, Json.bool _ => by simp [jsonBeq]
  | Json.num _, Json.num _ => by simp [jsonBeq]
  | Json.str _, Json.str _ => by simp [jsonBeq]
  | Json.arr a, Json.arr b => by simp [jsonBeq, jsonBeqElems_eq a b]
  | Json.obj a, Json.obj b => by simp [jsonBeq, jsonBeqPairs_eq a b]
  | Json.null, Json.bool _ | Json.null, Json.num _ | Json.null, Json.str _
  | Json.null, Json.arr _ | Json.null, Json.obj _
  | Json.bool _, Json.null | Json.bool _, Json.num _ | Json.bool _, Json.str _
  | Json.bool _, Json.arr _ | Json.bool _, Json.obj _
  | Json.num _, Json.null | Json.num _, Json.bool _ | Json.num _, Json.str _
  | Json.num _, Json.arr _ | Json.num _, Json.obj _
  | Json.str _, Json.null | Json.str _, Json.bool _ | Json.str _, Json.num _
  | Json.str _, Json.arr _ | Json.str _, Json.obj _
  | Json.arr _, Json.null | Json.arr _, Json.bool _ | Json.arr _, Json.num _
  | Json.arr _, Json.str _ | Json.arr _, Json.obj _
  | Json.obj _, Json.null | Json.obj _, Json.bool _ | Json.obj _, Json.num _
  | Json.obj _, Json.str _ | Json.obj _, Json.arr _ => by simp [jsonBeq]

/-- Element-wise comparison of value lists decides their equality. -/
theorem jsonBeqElems_eq : ∀ as bs : List Json, jsonBeqElems as bs = true ↔ as = bs
  | [], [] => by simp [jsonBeqElems]
  | [], _ :: _ => by simp [jsonBeqElems]
  | _ :: _, [] => by simp [jsonBeqElems]
  | a :: as, b :: bs => by simp [jsonBeqElems, jsonBeq_eq a b, jsonBeqElems_eq as bs]

/-- Pair-wise comparison of field lists decides their equality. -/
theorem jsonBeqPairs_eq : ∀ ps qs : List (String × Json), jsonBeqPairs ps qs = true ↔ ps = qs
  | [], [] => by simp [jsonBeqPairs]
  | [], _ :: _ => by simp [jsonBeqPairs]
  | _ :: _, [] => by simp [jsonBeqPairs]
  | (k, v) :: ps, (l, w) :: qs => by
    simp [jsonBeqPairs, jsonBeq_eq v w, jsonBeqPairs_eq ps qs, and_assoc]

end

instance : DecidableEq Json := fun a b => decidable_of_iff _ (jsonBeq_eq a b)

/-! ### Python string primitives -/

/-- The characters `str.strip()` removes, restricted to ASCII (the script only
feeds it text in this range). -/
def pyIsSpace (c : Char) : Bool :=
  c = ' ' || c = '\t' || c = '\n' || c = '\r' || c = '\x0b' || c = '\x0c'

/-- `s.strip()`: remove leading and trailing whitespace. -/
def pyStrip (s : String) : String :=
  String.mk (((s.data.dropWhile pyIsSpace).reverse.dropWhile pyIsSpace).reverse)

/-- `s.lower()`, restricted to the ASCII range (`Char.toLower` maps `A`-`Z` to
`a`-`z` and fixes everything else, as Python does on this range). -/
def pyLower (s : String) : String :=
  String.mk (s.data.map Char.toLower)

/-! ### Python dict primitives -/

/-- `d.get(k, dflt)` on the association list behind a `dict`. -/
def pyDictGet (d : PyDict) (k : String) (dflt : Json) : Json :=
  match d.lookup k with
  | some v => v
  | none => dflt

/-- `d[k] = v` on the association list behind a `dict`: an existing key keeps
its position and gets the new value; a new key is appended at the end.  This is
Python's insertion-order semantics. -/
def pyDictSet (d : PyDict) (k : String) (v : Json) : PyDict :=
  match d with
  | [] => [(k, v)]
  | (k', v') :: rest => if k' = k then (k, v) :: rest else (k', v') :: pyDictSet rest k v

/-! ### FUNCIÓN 1: `extraer_texto_pdf` (src/main.py lines 30-84)

The PDF library is external; a PDF that opens successfully is modelled by the
list of per-page strings `pagina.extract_text()` returns, and a PDF whose
opening or parsing raises (missing file, corrupt or encrypted PDF) by `none` —
the `except` arm at lines 77-81 turns any such exception into a `None`
result. -/

/-- The separator the loop prepends for page `n`:
`f"\n--- PÁGINA {numero_pagina + 1} ---\n"`. -/
def pagina_marker (n : Nat) : String :=
  "\n--- PÁGINA " ++ toString n ++ " ---\n"

/-- The accumulation loop at lines 62-75: for each page, append the marker and
then the page's text.  `k` is the 1-based number of the first page of `pages`. -/
def texto_paginas : Nat → List String → String
  | _, [] => ""
  | k, t :: ts => pagina_marker k ++ t ++ texto_paginas (k + 1) ts

/-- `extraer_texto_pdf`: `none` models the `except` arm (open/parse failure);
on success the page texts are concatenated, each preceded by its marker,
starting from page 1. -/
def extraer_texto_pdf : Option (List String) → Option String
  | none => none
  | some pages => some (texto_paginas 1 pages)

/-! ### FUNCIÓN 2: `analizar_estructura_documento` (src/main.py lines 89-197)

The remote chat-completion call is external.  Its outcome is modelled by an
`Option String`: `some contenido` is `respuesta.choices[0].message.content`
(line 178) and `none` is any transport/API exception, which the outer handler
at lines 195-197 converts to a `None` return.  What remains of the function is
pure: strip the content (line 178) and strictly JSON-decode it, returning
`None` on `json.JSONDecodeError` (lines 188-194).  The model function is total,
which reflects that no fault escapes the function: both handlers return
`None`.  The definition itself appears right after the JSON codec below. -/

/-! ### The JSON codec: `json.loads` and `json.dump(..., indent=4, ensure_ascii=False)`

The script decodes the model response with `json.loads` (line 189) and writes
the final record with `json.dump(datos, archivo, indent=4, ensure_ascii=False)`
(line 357).  Both are modelled executably over `List Char`, on the JSON
fragment this pipeline produces and consumes: integer numerals (no float
literals, no `NaN`/`Infinity`) and strings without surrogate escapes.  A
Python `json.JSONDecodeError` is a `none` result of the parser. -/

/-- The whitespace `json.loads` skips between tokens (RFC 8259 / CPython's
scanner): space, tab, newline, carriage return.  Note this is a strict subset
of what `str.strip` removes. -/
def jsonWs (c : Char) : Bool :=
  c = ' ' || c = '\t' || c = '\n' || c = '\r'

/-- Drop leading JSON whitespace. -/
def skipWs : List Char → List Char
  | [] => []
  | c :: cs => if jsonWs c then skipWs cs else c :: cs

/-- The numeric value of a decimal digit character. -/
def digitVal (c : Char) : Option Nat :=
  if '0' ≤ c ∧ c ≤ '9' then some (c.toNat - '0'.toNat) else none

/-- The numeric value of a hexadecimal digit character, either case. -/
def hexVal (c : Char) : Option Nat :=
  if '0' ≤ c ∧ c ≤ '9' then some (c.toNat - '0'.toNat)
  else if 'a' ≤ c ∧ c ≤ 'f' then some (c.toNat - 'a'.toNat + 10)
  else if 'A' ≤ c ∧ c ≤ 'F' then some (c.toNat - 'A'.toNat + 10)
  else none

/-- Consume a maximal run of decimal digits, accumulating their value onto
`acc` most-significant first. -/
def parseDigits (acc : Nat) : List Char → Nat × List Char
  | [] => (acc, [])
  | c :: cs =>
    match digitVal c with
    | some d => parseDigits (acc * 10 + d) cs
    | none => (acc, c :: cs)

/-- After an integer numeral, a `.` or an exponent marker would start a float
literal, which is outside this model (the pipeline never produces one); the
numeral is rejected rather than misread. -/
def rejectFloat : Nat × List Char → Option (Nat × List Char)
  | (n, []) => some (n, [])
  | (n, c :: rest) =>
    if c = '.' || c = 'e' || c = 'E' then none else some (n, c :: rest)

/-- A non-negative JSON integer numeral, per the scanner's
`(0|[1-9]\d*)` rule: a leading `0` is a complete numeral by itself. -/
def parseNat : List Char → Option (Nat × List Char)
  | [] => none
  | c :: rest =>
    if c = '0' then rejectFloat (0, rest)
    else
      match digitVal c with
      | some _ => rejectFloat (parseDigits 0 (c :: rest))
      | none => none

/-- A JSON integer numeral with optional leading minus sign. -/
def parseNumber : List Char → Option (Int × List Char)
  | [] => none
  | c :: cs =>
    if c = '-' then (parseNat cs).map fun p => (-(p.1 : Int), p.2)
    else (parseNat (c :: cs)).map fun p => ((p.1 : Int), p.2)

/-- The body of a string literal, after the opening quote: characters up to
the closing quote, with the escape sequences `json.loads` accepts.  Strict
mode: a raw control character is an error.  `\uXXXX` escapes denoting
surrogates are outside this model (Python would combine pairs or keep lone
surrogates, neither of which a `Char` can hold, and the pipeline never
produces them). -/
def parseStringBody : List Char → Option (List Char × List Char)
  | [] => none
  | c :: cs =>
    if c = '"' then some ([], cs)
    else if c = '\\' then
      match cs with
      | [] => none
      | e :: cs' =>
        if e = '"' then (parseStringBody cs').map fun p => ('"' :: p.1, p.2)
        else if e = '\\' then (parseStringBody cs').map fun p => ('\\' :: p.1, p.2)
        else if e = '/' then (parseStringBody cs').map fun p => ('/' :: p.1, p.2)
        else if e = 'b' then (parseStringBody cs').map fun p => ('\x08' :: p.1, p.2)
        else if e = 'f' then (parseStringBody cs').map fun p => ('\x0c' :: p.1, p.2)
        else if e = 'n' then (parseStringBody cs').map fun p => ('\n' :: p.1, p.2)
        else if e = 'r' then (parseStringBody cs').map fun p => ('\r' :: p.1, p.2)
        else if e = 't' then (parseStringBody cs').map fun p => ('\t' :: p.1, p.2)
        else if e = 'u' then
          match cs' with
          | h3 :: h2 :: h1 :: h0 :: cs'' =>
            match hexVal h3, hexVal h2, hexVal h1, hexVal h0 with
            | some a, some b, some c, some d =>
              let n := ((a * 16 + b) * 16 + c) * 16 + d
              if n < 0xD800 || 0xDFFF < n then
                (parseStringBody cs'').map fun p => (Char.ofNat n :: p.1, p.2)
              else none
            | _, _, _, _ => none
          | _ => none
        else none
    else if c.toNat < 0x20 then none
    else (parseStringBody cs).map fun p => (c :: p.1, p.2)

/-- `dict(pairs)` as `json.loads` builds an object from its parsed key/value
pairs: a repeated key keeps its first position and takes its last value. -/
def pyDictOfPairs (ps : List (String × Json)) : PyDict :=
  ps.foldl (fun d p => pyDictSet d p.1 p.2) []

mutual

/-- A JSON value: leading whitespace, then a literal, numeral, string, array
or object.  `fuel` bounds the recursion depth; `json_loads` supplies more fuel
than any document of its input's length can need. -/
def parseValue : Nat → List Char → Option (Json × List Char)
  | 0, _ => none
  | fuel + 1, cs =>
    match skipWs cs with
    | [] => none
    | c :: cs' =>
      if c = 'n' then
        match cs' with
        | 'u' :: 'l' :: 'l' :: rest => some (Json.null, rest)
        | _ => none
      else if c = 't' then
        match cs' with
        | 'r' :: 'u' :: 'e' :: rest => some (Json.bool true, rest)
        | _ => none
      else if c = 'f' then
        match cs' with
        | 'a' :: 'l' :: 's' :: 'e' :: rest => some (Json.bool false, rest)
        | _ => none
      else if c = '"' then
        (parseStringBody cs').map fun p => (Json.str (String.mk p.1), p.2)
      else if c = '[' then
        match skipWs cs' with
        | ']' :: rest => some (Json.arr [], rest)
        | _ => (parseElems fuel cs' []).map fun p => (Json.arr p.1, p.2)
      else if c = '\x7b' then
        match skipWs cs' with
        | '\x7d' :: rest => some (Json.obj [], rest)
        | _ => (parsePairs fuel cs' []).map fun p => (Json.obj (pyDictOfPairs p.1), p.2)
      else
        (parseNumber (c :: cs')).map fun p => (Json.num p.1, p.2)

/-- The elements of a non-empty array: a value, then either `,` and more
elements or the closing `]`. -/
def parseElems : Nat → List Char → List Json → Option (List Json × List Char)
  | 0, _, _ => none
  | fuel + 1, cs, acc =>
    match parseValue fuel cs with
    | none => none
    | some (v, rest) =>
      match skipWs rest with
      | ',' :: rest' => parseElems fuel rest' (acc ++ [v])
      | ']' :: rest' => some (acc ++ [v], rest')
      | _ => none

/-- The members of a non-empty object: a string key, `:`, a value, then
either `,` and more members or the closing brace. -/
def parsePairs : Nat → List Char → List (String × Json) →
    Option (List (String × Json) × List Char)
  | 0, _, _ => none
  | fuel + 1, cs, acc =>
    match skipWs cs with
    | '"' :: cs' =>
      match parseStringBody cs' with
      | none => none
      | some (k, rest) =>
        match skipWs rest with
        | ':' :: rest' =>
          match parseValue fuel rest' with
          | none => none
          | some (v, rest'') =>
            match skipWs rest'' with
            | ',' :: rest''' => parsePairs fuel rest''' (acc ++ [(String.mk k, v)])
            | '\x7d' :: rest''' => some (acc ++ [(String.mk k, v)], rest''')
            | _ => none
        | _ => none
    | _ => none

end

/-- `json.loads`: strictly decode the whole input; trailing whitespace is
allowed, any other trailing text is an error ("Extra data").  `none` models
`json.JSONDecodeError`. -/
def json_loads (s : String) : Option Json :=
  match parseValue (s.data.length + 1) s.data with
  | some (j, rest) => if (skipWs rest).isEmpty then some j else none
  | none => none

/-! #### The printer -/

/-- A lowercase hexadecimal digit, as CPython's encoder writes in `\uXXXX`
escapes. -/
def hexDigitChar (n : Nat) : Char :=
  if n < 10 then Char.ofNat ('0'.toNat + n) else Char.ofNat ('a'.toNat + (n - 10))

/-- How the encoder writes one character of a string literal with
`ensure_ascii=False`: `"` and `\` are escaped, the five control characters
with short escapes use them, any other control character becomes `\u00XX`,
and everything else — including non-ASCII — is written literally. -/
def escapeChar (c : Char) : List Char :=
  if c = '"' then ['\\', '"']
  else if c = '\\' then ['\\', '\\']
  else if c = '\x08' then ['\\', 'b']
  else if c = '\t' then ['\\', 't']
  else if c = '\n' then ['\\', 'n']
  else if c = '\x0c' then ['\\', 'f']
  else if c = '\r' then ['\\', 'r']
  else if c.toNat < 0x20 then
    ['\\', 'u', '0', '0', hexDigitChar (c.toNat / 16), hexDigitChar (c.toNat % 16)]
  else [c]

/-- Escape every character of a string body. -/
def escapeChars : List Char → List Char
  | [] => []
  | c :: cs => escapeChar c ++ escapeChars cs

/-- A complete string literal. -/
def encodeString (s : String) : List Char :=
  '"' :: (escapeChars s.data ++ ['"'])

/-- The decimal digits of a natural number, most significant first. -/
def natDecimal (n : Nat) : List Char :=
  if _h : n < 10 then [Nat.digitChar n]
  else natDecimal (n / 10) ++ [Nat.digitChar (n % 10)]
  termination_by n
  decreasing_by exact Nat.div_lt_self (by omega) (by omega)

/-- The decimal numeral of an integer, as Python prints it. -/
def intDecimal (i : Int) : List Char :=
  if i < 0 then '-' :: natDecimal i.natAbs else natDecimal i.toNat

/-- The indentation for nesting depth `level` with `indent=4`. -/
def indentChars (level : Nat) : List Char :=
  List.replicate (4 * level) ' '

mutual

/-- `json.dump(..., indent=4, ensure_ascii=False)` of one value at nesting
depth `level`: empty containers print closed, non-empty ones put every item on
its own indented line, keys are separated from values by `: ` and items from
each other by `,`. -/
def dumpVal : Json → Nat → List Char
  | Json.null, _ => ['n', 'u', 'l', 'l']
  | Json.bool true, _ => ['t', 'r', 'u', 'e']
  | Json.bool false, _ => ['f', 'a', 'l', 's', 'e']
  | Json.num i, _ => intDecimal i
  | Json.str s, _ => encodeString s
  | Json.arr [], _ => ['[', ']']
  | Json.arr (x :: xs), level =>
    '[' :: '\n' :: (indentChars (level + 1) ++ dumpVal x (level + 1) ++
      dumpElems xs (level + 1) ++ '\n' :: (indentChars level ++ [']']))
  | Json.obj [], _ => ['\x7b', '\x7d']
  | Json.obj (p :: ps), level =>
    '\x7b' :: '\n' :: (indentChars (level + 1) ++ dumpPair p (level + 1) ++
      dumpPairs ps (level + 1) ++ '\n' :: (indentChars level ++ ['\x7d']))

/-- The remaining elements of a non-empty array, each preceded by `,`, a line
break and indentation. -/
def dumpElems : List Json → Nat → List Char
  | [], _ => []
  | x :: xs, level =>
    ',' :: '\n' :: (indentChars level ++ dumpVal x level ++ dumpElems xs level)

/-- One `"key": value` member. -/
def dumpPair : String × Json → Nat → List Char
  | (k, v), level => encodeString k ++ ':' :: ' ' :: dumpVal v level

/-- The remaining members of a non-empty object. -/
def dumpPairs : List (String × Json) → Nat → List Char
  | [], _ => []
  | p :: ps, level =>
    ',' :: '\n' :: (indentChars level ++ dumpPair p level ++ dumpPairs ps level)

end

/-- The exact text `json.dump(datos, archivo, indent=4, ensure_ascii=False)`
writes for `datos`. -/
def json_dump (j : Json) : String :=
  String.mk (dumpVal j 0)

/-! #### Support for the round-trip proof -/

/-- What can follow a complete value inside a dump: nothing (top level), a
`,` before the next item, or the line break before a closing bracket. -/
def delimOk : List Char → Bool
  | [] => true
  | c :: _ => c = ',' || c = '\n'

/-- No key occurs twice. -/
def distinctKeys : List String → Bool
  | [] => true
  | k :: ks => !ks.contains k && distinctKeys ks

mutual

/-- Every object anywhere inside the value has pairwise distinct keys — the
invariant of everything `json.loads` can produce, since a Python dict cannot
hold a key twice. -/
def jsonKeysNodup : Json → Bool
  | Json.arr l => jsonElemsKeysNodup l
  | Json.obj ps => distinctKeys (ps.map Prod.fst) && jsonPairsKeysNodup ps
  | _ => true

def jsonElemsKeysNodup : List Json → Bool
  | [] => true
  | x :: xs => jsonKeysNodup x && jsonElemsKeysNodup xs

def jsonPairsKeysNodup : List (String × Json) → Bool
  | [] => true
  | p :: ps => jsonKeysNodup p.2 && jsonPairsKeysNodup ps

end

mutual

/-- Enough fuel for `parseValue` to read the value back. -/
def jfuel : Json → Nat
  | Json.arr (x :: xs) => 2 + jfuel x + elemsFuel xs
  | Json.obj (p :: ps) => 2 + jfuel p.2 + pairsFuel ps
  | _ => 1

/-- Enough additional fuel for `parseElems` to read the remaining elements. -/
def elemsFuel : List Json → Nat
  | [] => 0
  | x :: xs => 1 + jfuel x + elemsFuel xs

/-- Enough additional fuel for `parsePairs` to read the remaining members. -/
def pairsFuel : List (String × Json) → Nat
  | [] => 0
  | p :: ps => 1 + jfuel p.2 + pairsFuel ps

end

/-! ### FUNCIÓN 2 (continued): the modelled `analizar_estructura_documento` -/

/-- The pure remainder of `analizar_estructura_documento` once the remote call
is an oracle: `none` in is any transport/API exception (the outer handler at
lines 195-197 returns `None`); `some contenido` is the completion's message
content, which is stripped (line 178) and strictly JSON-decoded, a decode
error returning `None` (lines 188-194).  Totality of this function models
that no fault escapes: both `except` arms return. -/
def analizar_estructura_documento (respuesta : Option String) : Option Json :=
  match respuesta with
  | none => none
  | some contenido => json_loads (pyStrip contenido)

/-! ### FUNCIÓN PARA GUARDAR: `guardar_datos_extraidos` (src/main.py lines 330-361)

The function opens the output file (by default `datos_extraidos.json`) and
writes `json.dump(datos, archivo, indent=4, ensure_ascii=False)`.  The model
returns the file's content; a write error only prints a message, so content is
all there is to model. -/

def guardar_datos_extraidos (datos : Json) : String :=
  json_dump datos

/-! ### FUNCIÓN 3: `filtrar_rectangulos_validos` (src/main.py lines 202-257) -/

/-- `rectangulo.get(k, "")` for the string fields of an entry, lines 236 and
239.  A non-`dict` entry, or a non-string value under `k`, would make the
script raise at the subsequent `.strip()`; such entries are outside this model
(the well-formedness predicate `rectWF` excludes them where a theorem needs
to be faithful to that point) and are mapped to `""` here. -/
def rectField (r : Json) (k : String) : String :=
  match r with
  | Json.obj fields =>
    match fields.lookup k with
    | some (Json.str s) => s
    | some _ => ""
    | none => ""
  | _ => ""

/-- The quality test at lines 246-247, applied to the stripped copies computed
at lines 236 and 239: stripped category longer than 2, stripped information
longer than 5, and the two not equal after lowercasing. -/
def keepRect (r : Json) : Bool :=
  let categoria := pyStrip (rectField r "categoria")
  let informacion := pyStrip (rectField r "informacion")
  decide (2 < categoria.length) && decide (5 < informacion.length) &&
    (pyLower categoria != pyLower informacion)

/-- `datos_extraidos.get("rectangulos_con_informacion", [])` (line 233),
specialised to a list value: the schema's value under this key is an array,
and a non-array value would make the `for` loop iterate something else or
raise, which no claim exercises. -/
def getRectList (d : PyDict) : List Json :=
  match d.lookup "rectangulos_con_informacion" with
  | some (Json.arr l) => l
  | some _ => []
  | none => []

/-- `filtrar_rectangulos_validos`.  `none` models Python `None`; the falsiness
test `if not datos_extraidos` (line 225) is true for both `None` and the empty
dict, hence both map to `none`.  Otherwise the entries are filtered by
`keepRect` (the loop at lines 233-250 keeps the original, unstripped entry
objects) and the result is written back under the same key (line 254) —
in-place mutation of a dict, so every other key keeps its position and
value. -/
def filtrar_rectangulos_validos : Option PyDict → Option PyDict
  | none => none
  | some d =>
    if d.isEmpty then none
    else
      some (pyDictSet d "rectangulos_con_informacion"
        (Json.arr ((getRectList d).filter keepRect)))

/-! ### FUNCIÓN PRINCIPAL: `extraer_datos_documento_pdf` (src/main.py lines 262-325)

The orchestrator is modelled over two oracles: the PDF contents (as for
`extraer_texto_pdf`) and `analizador`, the behaviour of
`analizar_estructura_documento` as a function of the extracted text — `none`
for any of its failure modes, `some` for a successfully parsed record (the
schema's shape is an object; a parsed non-object value would make the script
raise inside the filter and is outside the model).  The second component of
the result instruments whether the remote analysis step was reached; the first
is the function's return value. -/

def extraer_datos_documento_pdf (pdf : Option (List String))
    (analizador : String → Option PyDict) : Option PyDict × Bool :=
  match extraer_texto_pdf pdf with
  | none => (none, false)
  | some texto =>
    if texto = "" then (none, false)
    else
      match analizador texto with
      | none => (none, true)
      | some datos =>
        if datos.isEmpty then (none, true)
        else (filtrar_rectangulos_validos (some datos), true)

/-! ### `__main__` (src/main.py lines 444-486) -/

/-- Observable effects of one run of the `__main__` block: whether the
pipeline (`extraer_datos_documento_pdf`) was invoked, whether
`guardar_datos_extraidos` was invoked (i.e. the output JSON file was created
or overwritten), and the diagnostic lines printed before the pipeline would
start. -/
structure MainEffects where
  pipeline_ejecutado : Bool
  salida_guardada : Bool
  consola : List String
  deriving Repr, DecidableEq

/-- The not-found diagnostic printed at lines 454-458. -/
def mensaje_no_existe : List String :=
  [ "Error: El archivo documents/documento1.pdf no existe",
    "Asegúrate de:",
    "   1. Colocar tu archivo PDF en la carpeta 'documents'",
    "   2. O cambiar la variable 'ruta_archivo_pdf' con la ruta correcta",
    "   3. Verificar que el nombre del archivo sea exacto (incluyendo mayúsculas/minúsculas)" ]

/-- One run of the `__main__` block.  `archivo_existe` is the outcome of
`os.path.exists(ruta_archivo_pdf)` (line 452); the remaining arguments are the
oracles of `extraer_datos_documento_pdf`.  When the file is missing, the four
help lines are printed and nothing else runs; otherwise the pipeline runs and,
on a truthy result (`if resultados:` at line 468), the record is rendered and
saved. -/
def main_run (archivo_existe : Bool) (pdf : Option (List String))
    (analizador : String → Option PyDict) : MainEffects :=
  if archivo_existe = false then
    { pipeline_ejecutado := false, salida_guardada := false, consola := mensaje_no_existe }
  else
    match (extraer_datos_documento_pdf pdf analizador).1 with
    | none => { pipeline_ejecutado := true, salida_guardada := false, consola := [] }
    | some resultados =>
      if resultados.isEmpty then
        { pipeline_ejecutado := true, salida_guardada := false, consola := [] }
      else
        { pipeline_ejecutado := true, salida_guardada := true, consola := [] }

/-! ### Well-formedness and example entries -/

/-- An entry the script's filter loop can process without raising: a dict
whose `categoria` and `informacion` values, where present, are strings (a
missing key falls back to `""` via `dict.get`, anything non-string would make
`.strip()` raise an `AttributeError`). -/
def rectWF : Json → Bool
  | Json.obj fields =>
    (match fields.lookup "categoria" with
     | some (Json.str _) => true
     | none => true
     | some _ => false) &&
    (match fields.lookup "informacion" with
     | some (Json.str _) => true
     | none => true
     | some _ => false)
  | _ => false

/-- The retention test exactly as the spec's filter sentence states it,
without the whitespace-stripping the code performs first: raw category length
> 2, raw information length > 5, and the lowercased raw strings differ. -/
def spec_c1_pred (r : Json) : Bool :=
  decide (2 < (rectField r "categoria").length) &&
    decide (5 < (rectField r "informacion").length) &&
    (pyLower (rectField r "categoria") != pyLower (rectField r "informacion"))

/-- `{"categoria": "AB", "informacion": "12345"}` — category too short. -/
def rect_ab : Json :=
  Json.obj [("categoria", Json.str "AB"), ("informacion", Json.str "12345")]

/-- `{"categoria": "ABC", "informacion": "123456"}` — passes every check. -/
def rect_abc : Json :=
  Json.obj [("categoria", Json.str "ABC"), ("informacion", Json.str "123456")]

/-- `{"categoria": "X", "informacion": "X"}` — category equals information. -/
def rect_xx : Json :=
  Json.obj [("categoria", Json.str "X"), ("informacion", Json.str "X")]

/-- `{"categoria": "AB ", "informacion": "123456"}` — raw category length 3,
stripped length 2: the point where the unstripped reading of the filter
contract and the code disagree. -/
def rect_ab_sp : Json :=
  Json.obj [("categoria", Json.str "AB "), ("informacion", Json.str "123456")]

/-- An entry whose category and information differ only in surrounding
whitespace. -/
def rect_ws_eq : Json :=
  Json.obj [("categoria", Json.str " ABCDEFG "), ("informacion", Json.str "ABCDEFG")]

/-- A retained entry that carries surrounding whitespace in both fields. -/
def rect_ws_keep : Json :=
  Json.obj [("categoria", Json.str " ABC "), ("informacion", Json.str " 123456 ")]

/-- A concrete structured result, as in the spec's end-to-end scenario. -/
def resultado_ejemplo : Json :=
  Json.obj [
    ("rectangulos_con_informacion", Json.arr [
      Json.obj [("categoria", Json.str "Nombre"),
                ("informacion", Json.str "Juan Pérez")]]),
    ("informacion_externa", Json.arr []),
    ("datos_adicionales", Json.obj [])]

/-! ### Lemmas about `pyDictSet` and the filter -/

theorem pyDictSet_ne_nil (d : PyDict) (k : String) (v : Json) :
    pyDictSet d k v ≠ [] := by
  cases d with
  | nil => simp [pyDictSet]
  | cons p rest =>
    obtain ⟨k', v'⟩ := p
    simp only [pyDictSet]
    split <;> simp

theorem lookup_pyDictSet_self (d : PyDict) (k : String) (v : Json) :
    (pyDictSet d k v).lookup k = some v := by
  induction d with
  | nil => simp [pyDictSet, List.lookup]
  | cons p rest ih =>
    obtain ⟨k', v'⟩ := p
    by_cases h : k' = k
    · subst h; simp [pyDictSet, List.lookup]
    · have hb : (k == k') = false := beq_eq_false_iff_ne.mpr (Ne.symm h)
      simp [pyDictSet, h, List.lookup, hb, ih]

theorem lookup_pyDictSet_ne (d : PyDict) (k k' : String) (v : Json) (h : k' ≠ k) :
    (pyDictSet d k v).lookup k' = d.lookup k' := by
  have hb : (k' == k) = false := beq_eq_false_iff_ne.mpr h
  induction d with
  | nil => simp [pyDictSet, List.lookup, hb]
  | cons p rest ih =>
    obtain ⟨k₀, v₀⟩ := p
    by_cases h0 : k₀ = k
    · subst h0; simp [pyDictSet, List.lookup, hb]
    · cases hx : k' == k₀ <;> simp [pyDictSet, h0, List.lookup, hx, ih]

theorem pyDictSet_pyDictSet_self (d : PyDict) (k : String) (v w : Json) :
    pyDictSet (pyDictSet d k v) k w = pyDictSet d k w := by
  induction d with
  | nil => simp [pyDictSet]
  | cons p rest ih =>
    obtain ⟨k', v'⟩ := p
    simp only [pyDictSet]
    split
    · simp [pyDictSet]
    · next h => simp only [pyDictSet, if_neg h, ih]

theorem getRectList_pyDictSet (d : PyDict) (l : List Json) :
    getRectList (pyDictSet d "rectangulos_con_informacion" (Json.arr l)) = l := by
  simp [getRectList, lookup_pyDictSet_self]

/-- The result of a successful filter run, explicitly. -/
theorem filtrar_some (d : PyDict) (hd : ¬d.isEmpty = true) :
    filtrar_rectangulos_validos (some d) =
      some (pyDictSet d "rectangulos_con_informacion"
        (Json.arr ((getRectList d).filter keepRect))) := by
  simp [filtrar_rectangulos_validos, hd]

/-- Unfolding of the retention test into its three conditions. -/
theorem keepRect_iff (r : Json) :
    keepRect r = true ↔
      2 < (pyStrip (rectField r "categoria")).length ∧
        5 < (pyStrip (rectField r "informacion")).length ∧
        pyLower (pyStrip (rectField r "categoria")) ≠
          pyLower (pyStrip (rectField r "informacion")) := by
  simp [keepRect, and_assoc]

/-! ## The claims -/

/-- Claim C1, as stated, is false of the code at a concrete input: the entry
`{"categoria": "AB ", "informacion": "123456"}` satisfies the claim's raw
retention condition (raw category length 3 > 2, raw information length 6 > 5,
lowercased raw strings differ), yet `filtrar_rectangulos_validos` drops it,
because the code strips the fields before measuring and `"AB ".strip()` has
length 2. -/
theorem c1_counterexample :
    spec_c1_pred rect_ab_sp = true ∧ keepRect rect_ab_sp = false ∧
    filtrar_rectangulos_validos
        (some [("rectangulos_con_informacion", Json.arr [rect_ab_sp])]) =
      some [("rectangulos_con_informacion", Json.arr [])] :=
  ⟨by decide, by decide, by decide⟩

/-- Claim C1 as amended: over entries the filter can process, an entry is
retained if and only if its whitespace-stripped category is longer than 2, its
whitespace-stripped information is longer than 5, and the two stripped strings
differ after lowercasing; in particular `{"categoria": "AB", "informacion":
"12345"}` is dropped, `{"categoria": "ABC", "informacion": "123456"}` is
retained, and `{"categoria": "X", "informacion": "X"}` is dropped. -/
theorem c1_amended (d d' : PyDict) (r : Json)
    (hres : filtrar_rectangulos_validos (some d) = some d')
    (_hwf : (getRectList d).all rectWF = true) :
    (r ∈ getRectList d' ↔
      r ∈ getRectList d ∧
        2 < (pyStrip (rectField r "categoria")).length ∧
        5 < (pyStrip (rectField r "informacion")).length ∧
        pyLower (pyStrip (rectField r "categoria")) ≠
          pyLower (pyStrip (rectField r "informacion"))) ∧
    filtrar_rectangulos_validos
        (some [("rectangulos_con_informacion", Json.arr [rect_ab, rect_abc, rect_xx])]) =
      some [("rectangulos_con_informacion", Json.arr [rect_abc])] := by
  constructor
  · have hne : ¬d.isEmpty = true := by
      intro h
      rw [filtrar_rectangulos_validos] at hres
      simp [h] at hres
    rw [filtrar_some d hne] at hres
    obtain rfl := (Option.some.inj hres).symm
    rw [getRectList_pyDictSet]
    simp only [List.mem_filter, keepRect_iff, and_assoc]
  · decide

/-- Witness for `c1_amended` at a concrete record containing the retained
example entry. -/
theorem c1_amended_witness :
    (rect_abc ∈ getRectList [("rectangulos_con_informacion", Json.arr [rect_abc])] ↔
      rect_abc ∈ getRectList [("rectangulos_con_informacion", Json.arr [rect_abc])] ∧
        2 < (pyStrip (rectField rect_abc "categoria")).length ∧
        5 < (pyStrip (rectField rect_abc "informacion")).length ∧
        pyLower (pyStrip (rectField rect_abc "categoria")) ≠
          pyLower (pyStrip (rectField rect_abc "informacion"))) ∧
    filtrar_rectangulos_validos
        (some [("rectangulos_con_informacion", Json.arr [rect_ab, rect_abc, rect_xx])]) =
      some [("rectangulos_con_informacion", Json.arr [rect_abc])] :=
  c1_amended [("rectangulos_con_informacion", Json.arr [rect_abc])]
    [("rectangulos_con_informacion", Json.arr [rect_abc])] rect_abc
    (by decide) (by decide)

/-- Claim C4: the filter is idempotent — applying
`filtrar_rectangulos_validos` twice gives the same result as applying it
once, for every input. -/
theorem c4_filtrar_idempotente (d : Option PyDict) :
    filtrar_rectangulos_validos (filtrar_rectangulos_validos d) =
      filtrar_rectangulos_validos d := by
  cases d with
  | none => rfl
  | some l =>
    by_cases h : l.isEmpty = true
    · simp [filtrar_rectangulos_validos, h]
    · rw [filtrar_some l h, filtrar_some _ (by
        simpa [List.isEmpty_iff] using
          pyDictSet_ne_nil l "rectangulos_con_informacion"
            (Json.arr ((getRectList l).filter keepRect)))]
      rw [getRectList_pyDictSet, pyDictSet_pyDictSet_self]
      have hff : ((getRectList l).filter keepRect).filter keepRect
          = (getRectList l).filter keepRect :=
        List.filter_eq_self.mpr fun a ha => (List.mem_filter.mp ha).2
      rw [hff]

/-- Claim C6: on a non-empty record the filter only rewrites the
`rectangulos_con_informacion` entry, setting it to the filtered subset; the
value found under every other key is unchanged. -/
theorem c6_frame (d : PyDict) (hd : d ≠ []) (k : String)
    (hk : k ≠ "rectangulos_con_informacion") :
    ∃ d', filtrar_rectangulos_validos (some d) = some d' ∧
      d'.lookup k = d.lookup k ∧
      d'.lookup "rectangulos_con_informacion" =
        some (Json.arr ((getRectList d).filter keepRect)) :=
  ⟨_, filtrar_some d (by simpa [List.isEmpty_iff] using hd),
    lookup_pyDictSet_ne _ _ _ _ hk, lookup_pyDictSet_self _ _ _⟩

/-- Witness for `c6_frame` at a record whose `informacion_externa` entry must
survive filtering untouched. -/
theorem c6_frame_witness :
    ∃ d', filtrar_rectangulos_validos
        (some [("informacion_externa", Json.arr [Json.str "nota"])]) = some d' ∧
      d'.lookup "informacion_externa" =
        ([("informacion_externa", Json.arr [Json.str "nota"])] : PyDict).lookup
          "informacion_externa" ∧
      d'.lookup "rectangulos_con_informacion" =
        some (Json.arr ((getRectList
          [("informacion_externa", Json.arr [Json.str "nota"])]).filter keepRect)) :=
  c6_frame [("informacion_externa", Json.arr [Json.str "nota"])] (by decide)
    "informacion_externa" (by decide)

/-- Claim C7: an absent (`None`) or empty (`{}`) input makes the filter
return the absence signal `None`, not an empty structure. -/
theorem c7_absence :
    filtrar_rectangulos_validos none = none ∧
    filtrar_rectangulos_validos (some ([] : PyDict)) = none :=
  ⟨rfl, rfl⟩

/-- Claim C10: the filter retains the original entry objects — the output
entry list is a sublist of the input entry list, element for element — even
though the checks are made on stripped copies: an entry whose category and
information differ only in surrounding whitespace is dropped, and a retained
entry keeps its surrounding whitespace. -/
theorem c10_original_entries :
    (∀ d : PyDict, ((getRectList d).filter keepRect).Sublist (getRectList d)) ∧
    keepRect rect_ws_eq = false ∧
    filtrar_rectangulos_validos
        (some [("rectangulos_con_informacion", Json.arr [rect_ws_eq, rect_ws_keep])]) =
      some [("rectangulos_con_informacion", Json.arr [rect_ws_keep])] :=
  ⟨fun _ => List.filter_sublist _, by decide, by decide⟩

/-! Lemmas about the page loop of `extraer_texto_pdf`. -/

/-- The accumulation loop, read off structurally: the output is the
block-by-block concatenation of page markers and page texts, with marker
numbers counting up from `k`. -/
theorem texto_paginas_data (pages : List String) (k : Nat) :
    (texto_paginas k pages).data =
      (((List.range pages.length).zip pages).map
        fun p => (pagina_marker (k + p.1) ++ p.2).data).flatten := by
  induction pages generalizing k with
  | nil => rfl
  | cons t ts ih =>
    rw [texto_paginas, List.length_cons, List.range_succ_eq_map, List.zip_cons_cons,
      List.map_cons, List.flatten_cons, String.data_append, String.data_append,
      List.zip_map_left, List.map_map, ih (k + 1)]
    have harith : (fun p : Nat × String => (pagina_marker (k + p.1) ++ p.2).data) ∘
        Prod.map Nat.succ id =
        fun p : Nat × String => (pagina_marker (k + 1 + p.1) ++ p.2).data := by
      funext p
      obtain ⟨i, u⟩ := p
      simp [Function.comp, Prod.map, Nat.succ_eq_add_one]
      congr 2
      omega
    rw [harith]
    simp [List.append_assoc]

/-- Every page in range contributes its marker as an infix of the loop's
output. -/
theorem texto_paginas_marker_infix (pages : List String) (k j : Nat)
    (hj : j < pages.length) :
    (pagina_marker (k + j)).data <:+: (texto_paginas k pages).data := by
  induction pages generalizing k j with
  | nil => simp at hj
  | cons t ts ih =>
    cases j with
    | zero =>
      rw [texto_paginas, String.data_append, String.data_append, List.append_assoc]
      exact (List.prefix_append _ _).isInfix
    | succ j' =>
      have hsub : (pagina_marker (k + 1 + j')).data <:+: (texto_paginas (k + 1) ts).data :=
        ih (k + 1) j' (by simpa using hj)
      have hrw : k + (j' + 1) = k + 1 + j' := by omega
      rw [texto_paginas, String.data_append, String.data_append, List.append_assoc, hrw]
      exact hsub.trans (((List.suffix_append _ _).trans (List.suffix_append _ _)).isInfix)

/-- Claim C5: for a PDF that opens successfully and has at least one page,
the extractor returns a string that is non-empty, is exactly the
concatenation, page by page in order, of the marker `"\n--- PÁGINA n ---\n"`
(with `n` counting up from 1) followed by that page's text, and hence
contains each page's marker. -/
theorem c5_markers (pages : List String) (h : pages ≠ []) :
    ∃ s, extraer_texto_pdf (some pages) = some s ∧ s ≠ "" ∧
      s.data = (((List.range pages.length).zip pages).map
        fun p => (pagina_marker (1 + p.1) ++ p.2).data).flatten ∧
      ∀ j, j < pages.length → (pagina_marker (1 + j)).data <:+: s.data := by
  refine ⟨texto_paginas 1 pages, rfl, ?_, texto_paginas_data pages 1, ?_⟩
  · intro he
    obtain ⟨t, ts, rfl⟩ : ∃ t ts, pages = t :: ts := by
      cases pages with
      | nil => exact absurd rfl h
      | cons t ts => exact ⟨t, ts, rfl⟩
    have : (texto_paginas 1 (t :: ts)).data = [] := by rw [he]
    rw [texto_paginas, String.data_append, String.data_append] at this
    have hm : (pagina_marker 1).data ≠ [] := by decide
    simp [List.append_eq_nil] at this
    exact hm this.1
  · intro j hj
    exact texto_paginas_marker_infix pages 1 j hj

/-- Witness for `c5_markers` at a two-page PDF. -/
theorem c5_markers_witness :
    ∃ s, extraer_texto_pdf (some ["hola", "mundo"]) = some s ∧ s ≠ "" ∧
      s.data = (((List.range (["hola", "mundo"] : List String).length).zip
          ["hola", "mundo"]).map
        fun p => (pagina_marker (1 + p.1) ++ p.2).data).flatten ∧
      ∀ j, j < (["hola", "mundo"] : List String).length →
        (pagina_marker (1 + j)).data <:+: s.data :=
  c5_markers ["hola", "mundo"] (by decide)

/-- Claim C3: whenever the text extraction comes back absent (`None`, from an
open or parse failure) or empty (a PDF with no pages), the orchestrator
returns `None` and the remote analysis step is never invoked — for every
possible behaviour of the remote step. -/
theorem c3_no_remote_call (pdf : Option (List String))
    (analizador : String → Option PyDict)
    (h : extraer_texto_pdf pdf = none ∨ extraer_texto_pdf pdf = some "") :
    extraer_datos_documento_pdf pdf analizador = (none, false) := by
  rcases h with h | h <;> simp [extraer_datos_documento_pdf, h]

/-- Witness for `c3_no_remote_call`: a PDF that fails to open (left case) is
handled without calling any analyser, here the constantly-succeeding one. -/
theorem c3_no_remote_call_witness :
    extraer_datos_documento_pdf none
      (fun _ => some [("informacion_externa", Json.arr [])]) = (none, false) :=
  c3_no_remote_call none (fun _ => some [("informacion_externa", Json.arr [])])
    (Or.inl rfl)

/-- Claim C8: when the input file does not exist, the run prints the
not-found diagnostic with its remediation hints and stops — the pipeline is
never executed and the output JSON file is neither created nor overwritten —
whatever the PDF contents and remote behaviour would have been. -/
theorem c8_missing_file (pdf : Option (List String))
    (analizador : String → Option PyDict) :
    main_run false pdf analizador =
      { pipeline_ejecutado := false, salida_guardada := false,
        consola := mensaje_no_existe } := by
  rfl

/-- Claim C2: the response-parsing step of `analizar_estructura_documento`
is exactly strict JSON decoding of the stripped response text, with every
decode failure (and every transport failure) mapped to the absence signal
`None` — the function is total, so no fault escapes it — and in particular
the escape token `"ERROR_JSON"` is not valid JSON and yields `None`. -/
theorem c2_parse_failure :
    (∀ s : String, analizar_estructura_documento (some s) = json_loads (pyStrip s)) ∧
    json_loads "ERROR_JSON" = none ∧
    analizar_estructura_documento (some "ERROR_JSON") = none ∧
    analizar_estructura_documento none = none :=
  ⟨fun _ => rfl, by decide, by decide, rfl⟩

/-! ## Lemmas for the JSON round trip: digits and numerals -/

theorem digitVal_bounds {c : Char} {d : Nat} (h : digitVal c = some d) :
    '0' ≤ c ∧ c ≤ '9' := by
  unfold digitVal at h
  split at h
  · next hb => exact hb
  · simp at h

theorem digit_ne {c : Char} {d : Nat} (h : digitVal c = some d) (x : Char)
    (hx : ¬('0' ≤ x ∧ x ≤ '9')) : c ≠ x := by
  intro he
  subst he
  exact hx (digitVal_bounds h)

theorem digit_not_ws {c : Char} {d : Nat} (h : digitVal c = some d) :
    jsonWs c = false := by
  have h1 := digit_ne h ' ' (by decide)
  have h2 := digit_ne h '\t' (by decide)
  have h3 := digit_ne h '\n' (by decide)
  have h4 := digit_ne h '\r' (by decide)
  simp [jsonWs, h1, h2, h3, h4]

theorem digitVal_digitChar (n : Nat) (h : n < 10) :
    digitVal (Nat.digitChar n) = some n := by
  interval_cases n <;> decide

theorem digitChar_ne_zero (n : Nat) (h : n < 10) (h0 : n ≠ 0) :
    Nat.digitChar n ≠ '0' := by
  interval_cases n
  · exact absurd rfl h0
  all_goals decide

theorem hexVal_hexDigitChar (n : Nat) (h : n < 16) :
    hexVal (hexDigitChar n) = some n := by
  interval_cases n <;> decide

/-! Whitespace skipping. -/

theorem skipWs_cons_ws {c : Char} (h : jsonWs c = true) (l : List Char) :
    skipWs (c :: l) = skipWs l := by simp [skipWs, h]

theorem skipWs_cons_not_ws {c : Char} (h : jsonWs c = false) (l : List Char) :
    skipWs (c :: l) = c :: l := by simp [skipWs, h]

theorem skipWs_append_ws (ws₀ : List Char) (h : ws₀.all jsonWs = true)
    (l : List Char) : skipWs (ws₀ ++ l) = skipWs l := by
  induction ws₀ with
  | nil => rfl
  | cons c cs ih =>
    simp only [List.all_cons, Bool.and_eq_true] at h
    rw [List.cons_append, skipWs_cons_ws h.1, ih h.2]

theorem indentChars_all_ws (lvl : Nat) : (indentChars lvl).all jsonWs = true := by
  simp only [indentChars, List.all_eq_true]
  intro c hc
  rw [List.eq_of_mem_replicate hc]
  rfl

theorem skipWs_indent (lvl : Nat) (l : List Char) :
    skipWs (indentChars lvl ++ l) = skipWs l :=
  skipWs_append_ws _ (indentChars_all_ws lvl) l

/-! Numerals. -/

theorem parseDigits_stop (a : Nat) (rest : List Char) (h : delimOk rest = true) :
    parseDigits a rest = (a, rest) := by
  cases rest with
  | nil => rfl
  | cons c cs =>
    simp only [delimOk, Bool.or_eq_true, decide_eq_true_eq] at h
    rcases h with h | h <;> subst h <;> rfl

theorem rejectFloat_delim (x : Nat) (rest : List Char) (h : delimOk rest = true) :
    rejectFloat (x, rest) = some (x, rest) := by
  cases rest with
  | nil => rfl
  | cons c cs =>
    simp only [delimOk, Bool.or_eq_true, decide_eq_true_eq] at h
    rcases h with h | h <;> subst h <;> rfl

theorem parseDigits_natDecimal (n : Nat) : ∀ (a : Nat) (rest : List Char),
    parseDigits a (natDecimal n ++ rest) =
      parseDigits (a * 10 ^ (natDecimal n).length + n) rest := by
  induction n using Nat.strong_induction_on with
  | _ n ih =>
    intro a rest
    by_cases h : n < 10
    · rw [natDecimal, dif_pos h, List.singleton_append]
      simp only [parseDigits, digitVal_digitChar n h, List.length_singleton]
      norm_num
    · have hm : n % 10 < 10 := Nat.mod_lt _ (by omega)
      rw [natDecimal, dif_neg h, List.append_assoc, List.singleton_append,
        ih (n / 10) (Nat.div_lt_self (by omega) (by omega))]
      simp only [parseDigits, digitVal_digitChar (n % 10) hm, List.length_append,
        List.length_singleton]
      congr 1
      have hdm := Nat.div_add_mod n 10
      set L := (natDecimal (n / 10)).length with hL
      calc (a * 10 ^ L + n / 10) * 10 + n % 10
          = a * (10 ^ L * 10) + (10 * (n / 10) + n % 10) := by ring
        _ = a * 10 ^ (L + 1) + n := by rw [hdm, pow_succ]

theorem natDecimal_cons (n : Nat) :
    ∃ c cs d, natDecimal n = c :: cs ∧ digitVal c = some d ∧ (n ≠ 0 → c ≠ '0') := by
  induction n using Nat.strong_induction_on with
  | _ n ih =>
    by_cases h : n < 10
    · refine ⟨Nat.digitChar n, [], n, ?_, digitVal_digitChar n h,
        fun h0 => digitChar_ne_zero n h h0⟩
      rw [natDecimal, dif_pos h]
    · obtain ⟨c, cs, d, hnd, hdv, h0⟩ :=
        ih (n / 10) (Nat.div_lt_self (by omega) (by omega))
      refine ⟨c, cs ++ [Nat.digitChar (n % 10)], d, ?_, hdv, fun _ => h0 (by omega)⟩
      rw [natDecimal, dif_neg h, hnd]
      rfl

theorem parseNat_natDecimal (n : Nat) (rest : List Char) (h : delimOk rest = true) :
    parseNat (natDecimal n ++ rest) = some (n, rest) := by
  by_cases hz : n = 0
  · subst hz
    have h0 : natDecimal 0 = ['0'] := by
      rw [natDecimal, dif_pos (by norm_num : (0 : Nat) < 10)]
      rfl
    rw [h0, List.singleton_append]
    simp only [parseNat, if_pos rfl]
    exact rejectFloat_delim 0 rest h
  · obtain ⟨c, cs, d, hnd, hdv, h0⟩ := natDecimal_cons n
    have hc0 : c ≠ '0' := h0 hz
    rw [hnd, List.cons_append]
    simp only [parseNat, if_neg hc0, hdv]
    rw [← List.cons_append, ← hnd, parseDigits_natDecimal n 0 rest]
    simp only [Nat.zero_mul, Nat.zero_add]
    rw [parseDigits_stop n rest h]
    exact rejectFloat_delim n rest h

theorem parseNumber_intDecimal (i : Int) (rest : List Char) (h : delimOk rest = true) :
    parseNumber (intDecimal i ++ rest) = some (i, rest) := by
  by_cases hneg : i < 0
  · rw [intDecimal, if_pos hneg, List.cons_append]
    simp only [parseNumber, if_pos rfl]
    rw [parseNat_natDecimal _ _ h]
    have hv : -(↑i.natAbs : Int) = i := by omega
    simp [hv, abs_of_neg hneg]
  · rw [intDecimal, if_neg hneg]
    obtain ⟨c, cs, d, hnd, hdv, h0⟩ := natDecimal_cons i.toNat
    have hcm : c ≠ '-' := digit_ne hdv '-' (by decide)
    rw [hnd, List.cons_append]
    simp only [parseNumber, if_neg hcm]
    rw [← List.cons_append, ← hnd, parseNat_natDecimal _ _ h]
    have hv : ((i.toNat : Nat) : Int) = i := by omega
    simp [hv]

/-! String literals. -/

theorem parseStringBody_escapeChars : ∀ (s : List Char) (rest : List Char),
    parseStringBody (escapeChars s ++ '"' :: rest) = some (s, rest) := by
  intro s
  induction s with
  | nil =>
    intro rest
    rw [escapeChars, List.nil_append, parseStringBody.eq_def]
    simp
  | cons c cs ih =>
    intro rest
    rw [escapeChars, List.append_assoc]
    by_cases h1 : c = '"'
    · subst h1
      rw [show escapeChar '"' = ['\\', '"'] from rfl, List.cons_append, List.cons_append,
        List.nil_append, parseStringBody.eq_def]
      simp [ih]
    · by_cases h2 : c = '\\'
      · subst h2
        rw [show escapeChar '\\' = ['\\', '\\'] from rfl, List.cons_append,
          List.cons_append, List.nil_append, parseStringBody.eq_def]
        simp [ih]
      · by_cases h3 : c = '\x08'
        · subst h3
          rw [show escapeChar '\x08' = ['\\', 'b'] from rfl, List.cons_append,
            List.cons_append, List.nil_append, parseStringBody.eq_def]
          simp [ih]
        · by_cases h4 : c = '\t'
          · subst h4
            rw [show escapeChar '\t' = ['\\', 't'] from rfl, List.cons_append,
              List.cons_append, List.nil_append, parseStringBody.eq_def]
            simp [ih]
          · by_cases h5 : c = '\n'
            · subst h5
              rw [show escapeChar '\n' = ['\\', 'n'] from rfl, List.cons_append,
                List.cons_append, List.nil_append, parseStringBody.eq_def]
              simp [ih]
            · by_cases h6 : c = '\x0c'
              · subst h6
                rw [show escapeChar '\x0c' = ['\\', 'f'] from rfl, List.cons_append,
                  List.cons_append, List.nil_append, parseStringBody.eq_def]
                simp [ih]
              · by_cases h7 : c = '\r'
                · subst h7
                  rw [show escapeChar '\r' = ['\\', 'r'] from rfl, List.cons_append,
                    List.cons_append, List.nil_append, parseStringBody.eq_def]
                  simp [ih]
                · by_cases h8 : c.toNat < 0x20
                  · rw [escapeChar, if_neg h1, if_neg h2, if_neg h3, if_neg h4,
                      if_neg h5, if_neg h6, if_neg h7, if_pos h8]
                    have hdiv : c.toNat / 16 < 16 := by omega
                    have hmod : c.toNat % 16 < 16 := by omega
                    have hn : c.toNat / 16 * 16 + c.toNat % 16 = c.toNat := by omega
                    have hlow : c.toNat < 0xD800 := by omega
                    rw [parseStringBody.eq_def]
                    simp [show hexVal '0' = some 0 from rfl,
                      hexVal_hexDigitChar _ hdiv, hexVal_hexDigitChar _ hmod,
                      hn, hlow, Char.ofNat_toNat, ih]
                  · rw [escapeChar, if_neg h1, if_neg h2, if_neg h3, if_neg h4,
                      if_neg h5, if_neg h6, if_neg h7, if_neg h8]
                    rw [List.singleton_append, parseStringBody.eq_def]
                    simp [h1, h2, h8, ih]

/-! Building a dict from pairs with no repeated key keeps the pairs. -/

theorem pyDictSet_append (d : PyDict) (k : String) (v : Json)
    (h : k ∉ d.map Prod.fst) : pyDictSet d k v = d ++ [(k, v)] := by
  induction d with
  | nil => rfl
  | cons p rest ih =>
    obtain ⟨k', v'⟩ := p
    simp only [List.map_cons, List.mem_cons] at h
    push_neg at h
    rw [pyDictSet, if_neg fun e => h.1 e.symm, List.cons_append, ih h.2]

theorem foldl_pyDictSet (ps : List (String × Json)) : ∀ acc : PyDict,
    (∀ k ∈ ps.map Prod.fst, k ∉ acc.map Prod.fst) →
    distinctKeys (ps.map Prod.fst) = true →
    ps.foldl (fun d p => pyDictSet d p.1 p.2) acc = acc ++ ps := by
  induction ps with
  | nil => intro acc _ _; simp
  | cons p ps ih =>
    intro acc hdisj hdk
    obtain ⟨k, v⟩ := p
    simp only [List.map_cons, distinctKeys, Bool.and_eq_true, Bool.not_eq_true'] at hdk
    have hknotin : k ∉ ps.map Prod.fst := by
      have hc := hdk.1
      simp at hc
      intro hm
      obtain ⟨⟨k₂, v₂⟩, hpm, he⟩ := List.mem_map.mp hm
      cases he
      exact hc v₂ hpm
    rw [List.foldl_cons]
    show List.foldl (fun d p => pyDictSet d p.1 p.2) (pyDictSet acc k v) ps = _
    rw [pyDictSet_append acc k v (hdisj k (by simp))]
    rw [ih (acc ++ [(k, v)]) ?_ hdk.2]
    · simp
    · intro k' hk'
      simp only [List.map_append, List.mem_append, List.map_cons, List.map_nil,
        List.mem_singleton, not_or]
      refine ⟨hdisj k' (by simp [hk']), fun he => ?_⟩
      subst he
      exact hknotin hk'

theorem pyDictOfPairs_self (ps : List (String × Json))
    (h : distinctKeys (ps.map Prod.fst) = true) : pyDictOfPairs ps = ps := by
  have := foldl_pyDictSet ps [] (by simp) h
  simpa [pyDictOfPairs] using this

/-! Heads of dumped values. -/

theorem intDecimal_head (i : Int) :
    ∃ c t, intDecimal i = c :: t ∧ (c = '-' ∨ ∃ d, digitVal c = some d) := by
  by_cases h : i < 0
  · exact ⟨'-', _, by rw [intDecimal, if_pos h], Or.inl rfl⟩
  · obtain ⟨c, cs, d, hnd, hdv, _⟩ := natDecimal_cons i.toNat
    exact ⟨c, cs, by rw [intDecimal, if_neg h, hnd], Or.inr ⟨d, hdv⟩⟩

theorem dumpVal_head (j : Json) (level : Nat) :
    ∃ c t, dumpVal j level = c :: t ∧ jsonWs c = false ∧ c ≠ ']' ∧ c ≠ '\x7d' := by
  cases j with
  | null => exact ⟨'n', _, by rw [dumpVal], by decide, by decide, by decide⟩
  | bool b =>
    cases b with
    | true => exact ⟨'t', _, by rw [dumpVal], by decide, by decide, by decide⟩
    | false => exact ⟨'f', _, by rw [dumpVal], by decide, by decide, by decide⟩
  | num i =>
    obtain ⟨c, t, h, hc⟩ := intDecimal_head i
    refine ⟨c, t, by rw [dumpVal, h], ?_, ?_, ?_⟩
    · rcases hc with rfl | ⟨d, hd⟩
      · decide
      · exact digit_not_ws hd
    · rcases hc with rfl | ⟨d, hd⟩
      · decide
      · exact digit_ne hd ']' (by decide)
    · rcases hc with rfl | ⟨d, hd⟩
      · decide
      · exact digit_ne hd '\x7d' (by decide)
  | str s =>
    exact ⟨'"', _, by rw [dumpVal]; rfl, by decide, by decide, by decide⟩
  | arr l =>
    cases l with
    | nil => exact ⟨'[', _, by rw [dumpVal], by decide, by decide, by decide⟩
    | cons x xs => exact ⟨'[', _, by rw [dumpVal], by decide, by decide, by decide⟩
  | obj ps =>
    cases ps with
    | nil => exact ⟨'\x7b', _, by rw [dumpVal], by decide, by decide, by decide⟩
    | cons p ps => exact ⟨'\x7b', _, by rw [dumpVal], by decide, by decide, by decide⟩

/-! Fuel bounds. -/

theorem jfuel_pos (j : Json) : 1 ≤ jfuel j := by
  cases j with
  | arr l =>
    cases l with
    | nil => simp [jfuel]
    | cons x xs => simp only [jfuel]; omega
  | obj ps =>
    cases ps with
    | nil => simp [jfuel]
    | cons p ps => simp only [jfuel]; omega
  | null => simp [jfuel]
  | bool b => simp [jfuel]
  | num i => simp [jfuel]
  | str s => simp [jfuel]

mutual

theorem jfuel_le_dump : ∀ (j : Json) (level : Nat), jfuel j ≤ (dumpVal j level).length
  | Json.null, level => by simp [jfuel, dumpVal]
  | Json.bool b, level => by cases b <;> simp [jfuel, dumpVal]
  | Json.num i, level => by
    obtain ⟨c, t, h, _⟩ := intDecimal_head i
    simp [jfuel, dumpVal, h]
  | Json.str s, level => by simp [jfuel, dumpVal, encodeString]
  | Json.arr [], level => by simp [jfuel, dumpVal]
  | Json.arr (x :: xs), level => by
    have h1 := jfuel_le_dump x (level + 1)
    have h2 := elemsFuel_le_dump xs (level + 1)
    simp only [jfuel, dumpVal, List.length_cons, List.length_append,
      elemsFuel]
    omega
  | Json.obj [], level => by simp [jfuel, dumpVal]
  | Json.obj (p :: ps), level => by
    have h1 := pairFuel_le_dump p (level + 1)
    have h2 := pairsFuel_le_dump ps (level + 1)
    simp only [jfuel, dumpVal, List.length_cons, List.length_append, pairsFuel]
    omega

theorem pairFuel_le_dump : ∀ (p : String × Json) (level : Nat),
    1 + jfuel p.2 ≤ (dumpPair p level).length
  | (k, v), level => by
    have h1 := jfuel_le_dump v level
    simp only [dumpPair, List.length_append, List.length_cons]
    omega

theorem elemsFuel_le_dump : ∀ (xs : List Json) (level : Nat),
    elemsFuel xs ≤ (dumpElems xs level).length
  | [], _ => by simp [elemsFuel, dumpElems]
  | x :: xs, level => by
    have h1 := jfuel_le_dump x level
    have h2 := elemsFuel_le_dump xs level
    simp only [elemsFuel, dumpElems, List.length_cons, List.length_append]
    omega

theorem pairsFuel_le_dump : ∀ (ps : List (String × Json)) (level : Nat),
    pairsFuel ps ≤ (dumpPairs ps level).length
  | [], _ => by simp [pairsFuel, dumpPairs]
  | p :: ps, level => by
    have h1 := pairFuel_le_dump p level
    have h2 := pairsFuel_le_dump ps level
    simp only [pairsFuel, dumpPairs, List.length_cons, List.length_append]
    omega

end

/-! Small whitespace helpers for the master induction. -/

theorem nl_indent_all_ws (lvl : Nat) : ('\n' :: indentChars lvl).all jsonWs = true := by
  rw [List.all_cons, indentChars_all_ws]
  decide

theorem skipWs_nl_indent (lvl : Nat) (l : List Char) :
    skipWs ('\n' :: (indentChars lvl ++ l)) = skipWs l := by
  rw [skipWs_cons_ws (by decide), skipWs_indent]

theorem parseValue_succ_skip (fuel : Nat) (ws₀ : List Char)
    (h : ws₀.all jsonWs = true) (l : List Char) :
    parseValue (fuel + 1) (ws₀ ++ l) = parseValue (fuel + 1) l := by
  rw [parseValue.eq_2]
  conv_rhs => rw [parseValue.eq_2]
  rw [skipWs_append_ws ws₀ h]

/-! The master induction: the parser reads back exactly what the printer
wrote, for every value whose objects have distinct keys (the invariant of
everything built from a Python dict), at every nesting level, after any run
of whitespace, and before any valid continuation. -/

mutual

theorem parseValue_dump : ∀ (fuel : Nat) (j : Json) (ws₀ : List Char) (level : Nat)
    (rest : List Char), jfuel j ≤ fuel → ws₀.all jsonWs = true → delimOk rest = true →
    jsonKeysNodup j = true →
    parseValue fuel (ws₀ ++ dumpVal j level ++ rest) = some (j, rest)
  | 0, j, _, _, _ => by
    intro hfuel _ _ _
    exact absurd hfuel (by have := jfuel_pos j; omega)
  | fuel + 1, j, ws₀, level, rest => by
    intro hfuel hws hrest hkeys
    rw [List.append_assoc, parseValue_succ_skip fuel ws₀ hws]
    cases j with
    | null =>
      rw [show dumpVal Json.null level ++ rest = 'n' :: ('u' :: ('l' :: ('l' :: rest)))
          from by rw [dumpVal]; rfl]
      rw [parseValue.eq_2, skipWs_cons_not_ws (by decide)]
      simp
    | bool b =>
      cases b with
      | true =>
        rw [show dumpVal (Json.bool true) level ++ rest
            = 't' :: ('r' :: ('u' :: ('e' :: rest))) from by rw [dumpVal]; rfl]
        rw [parseValue.eq_2, skipWs_cons_not_ws (by decide)]
        simp
      | false =>
        rw [show dumpVal (Json.bool false) level ++ rest
            = 'f' :: ('a' :: ('l' :: ('s' :: ('e' :: rest)))) from by rw [dumpVal]; rfl]
        rw [parseValue.eq_2, skipWs_cons_not_ws (by decide)]
        simp
    | num i =>
      obtain ⟨c, t, hd, hc⟩ := intDecimal_head i
      have hdump : dumpVal (Json.num i) level = c :: t := by rw [dumpVal, hd]
      have hcws : jsonWs c = false := by
        rcases hc with rfl | ⟨d, hdv⟩
        · decide
        · exact digit_not_ws hdv
      have hn : c ≠ 'n' := by
        rcases hc with rfl | ⟨d, hdv⟩
        · decide
        · exact digit_ne hdv 'n' (by decide)
      have ht : c ≠ 't' := by
        rcases hc with rfl | ⟨d, hdv⟩
        · decide
        · exact digit_ne hdv 't' (by decide)
      have hf : c ≠ 'f' := by
        rcases hc with rfl | ⟨d, hdv⟩
        · decide
        · exact digit_ne hdv 'f' (by decide)
      have hq : c ≠ '"' := by
        rcases hc with rfl | ⟨d, hdv⟩
        · decide
        · exact digit_ne hdv '"' (by decide)
      have hbr : c ≠ '[' := by
        rcases hc with rfl | ⟨d, hdv⟩
        · decide
        · exact digit_ne hdv '[' (by decide)
      have hbc : c ≠ '\x7b' := by
        rcases hc with rfl | ⟨d, hdv⟩
        · decide
        · exact digit_ne hdv '\x7b' (by decide)
      rw [hdump, List.cons_append, parseValue.eq_2, skipWs_cons_not_ws hcws]
      simp [hn, ht, hf, hq, hbr, hbc]
      rw [show c :: (t ++ rest) = intDecimal i ++ rest from by rw [hd, List.cons_append]]
      rw [parseNumber_intDecimal i rest hrest]
    | str s =>
      have hdump : dumpVal (Json.str s) level ++ rest
          = '"' :: (escapeChars s.data ++ ('"' :: rest)) := by
        rw [dumpVal, encodeString]
        simp
      rw [hdump, parseValue.eq_2, skipWs_cons_not_ws (by decide)]
      simp [parseStringBody_escapeChars]
    | arr l =>
      cases l with
      | nil =>
        rw [show dumpVal (Json.arr []) level ++ rest = '[' :: (']' :: rest)
            from by rw [dumpVal]; rfl]
        rw [parseValue.eq_2, skipWs_cons_not_ws (by decide)]
        have h2 : skipWs (']' :: rest) = ']' :: rest := skipWs_cons_not_ws (by decide) rest
        simp [h2]
      | cons x xs =>
        have hkeys' : jsonKeysNodup x = true ∧ jsonElemsKeysNodup xs = true := by
          rw [jsonKeysNodup, jsonElemsKeysNodup] at hkeys
          simpa using hkeys
        rw [jfuel] at hfuel
        have hdump : dumpVal (Json.arr (x :: xs)) level ++ rest
            = '[' :: ('\n' :: (indentChars (level + 1) ++ (dumpVal x (level + 1) ++
              (dumpElems xs (level + 1) ++
                ('\n' :: (indentChars level ++ (']' :: rest))))))) := by
          rw [dumpVal]
          simp
        rw [hdump, parseValue.eq_2, skipWs_cons_not_ws (by decide)]
        obtain ⟨c₀, t₀, hx, hxws, hxne, _⟩ := dumpVal_head x (level + 1)
        have hsk : skipWs ('\n' :: (indentChars (level + 1) ++ (dumpVal x (level + 1) ++
            (dumpElems xs (level + 1) ++ ('\n' :: (indentChars level ++ (']' :: rest)))))))
            = c₀ :: (t₀ ++ (dumpElems xs (level + 1) ++
              ('\n' :: (indentChars level ++ (']' :: rest))))) := by
          rw [skipWs_nl_indent, hx, List.cons_append, skipWs_cons_not_ws hxws]
        have hel := parseElems_dump fuel x xs [] ('\n' :: indentChars (level + 1)) level rest
          (by omega) (nl_indent_all_ws _) hrest hkeys'.1 hkeys'.2
        simp only [List.cons_append, List.append_assoc, List.nil_append] at hel
        simp [hsk, hxne]
        exact hel
    | obj ps =>
      cases ps with
      | nil =>
        rw [show dumpVal (Json.obj []) level ++ rest = '\x7b' :: ('\x7d' :: rest)
            from by rw [dumpVal]; rfl]
        rw [parseValue.eq_2, skipWs_cons_not_ws (by decide)]
        have h2 : skipWs ('\x7d' :: rest) = '\x7d' :: rest :=
          skipWs_cons_not_ws (by decide) rest
        simp [h2]
      | cons p ps =>
        have hkeys' : distinctKeys ((p :: ps).map Prod.fst) = true ∧
            jsonKeysNodup p.2 = true ∧ jsonPairsKeysNodup ps = true := by
          rw [jsonKeysNodup, jsonPairsKeysNodup] at hkeys
          simp only [Bool.and_eq_true] at hkeys
          exact ⟨hkeys.1, hkeys.2.1, hkeys.2.2⟩
        rw [jfuel] at hfuel
        have hdump : dumpVal (Json.obj (p :: ps)) level ++ rest
            = '\x7b' :: ('\n' :: (indentChars (level + 1) ++ (dumpPair p (level + 1) ++
              (dumpPairs ps (level + 1) ++
                ('\n' :: (indentChars level ++ ('\x7d' :: rest))))))) := by
          rw [dumpVal]
          simp
        rw [hdump, parseValue.eq_2, skipWs_cons_not_ws (by decide)]
        have hph : ∃ t₁, dumpPair p (level + 1) = '"' :: t₁ := by
          obtain ⟨k, v⟩ := p
          rw [dumpPair, encodeString]
          exact ⟨_, rfl⟩
        obtain ⟨t₁, hp1⟩ := hph
        have hsk : skipWs ('\n' :: (indentChars (level + 1) ++ (dumpPair p (level + 1) ++
            (dumpPairs ps (level + 1) ++ ('\n' :: (indentChars level ++ ('\x7d' :: rest)))))))
            = '"' :: (t₁ ++ (dumpPairs ps (level + 1) ++
              ('\n' :: (indentChars level ++ ('\x7d' :: rest))))) := by
          rw [skipWs_nl_indent, hp1, List.cons_append, skipWs_cons_not_ws (by decide)]
        have hpp := parsePairs_dump fuel p ps [] ('\n' :: indentChars (level + 1)) level rest
          (by have := jfuel_pos p.2; omega) (nl_indent_all_ws _) hrest hkeys'.2.1 hkeys'.2.2
        simp only [List.cons_append, List.append_assoc, List.nil_append] at hpp
        simp [hsk]
        rw [hpp]
        simp [pyDictOfPairs_self (p :: ps) hkeys'.1]

theorem parseElems_dump : ∀ (fuel : Nat) (x : Json) (xs : List Json) (acc : List Json)
    (ws₀ : List Char) (level : Nat) (rest : List Char),
    1 + jfuel x + elemsFuel xs ≤ fuel → ws₀.all jsonWs = true → delimOk rest = true →
    jsonKeysNodup x = true → jsonElemsKeysNodup xs = true →
    parseElems fuel (ws₀ ++ dumpVal x (level + 1) ++ (dumpElems xs (level + 1) ++
      ('\n' :: (indentChars level ++ (']' :: rest))))) acc = some (acc ++ x :: xs, rest)
  | 0, x, xs, acc, ws₀, level, rest => by
    intro hfuel _ _ _ _
    exact absurd hfuel (by omega)
  | fuel + 1, x, xs, acc, ws₀, level, rest => by
    intro hfuel hws hrest hkx hkxs
    have hREST : delimOk (dumpElems xs (level + 1) ++
        ('\n' :: (indentChars level ++ (']' :: rest)))) = true := by
      cases xs with
      | nil => rw [dumpElems]; rfl
      | cons y ys => rw [dumpElems]; rfl
    have hpv := parseValue_dump fuel x ws₀ (level + 1)
      (dumpElems xs (level + 1) ++ ('\n' :: (indentChars level ++ (']' :: rest))))
      (by omega) hws hREST hkx
    rw [parseElems.eq_2, hpv]
    cases xs with
    | nil =>
      have hde : dumpElems ([] : List Json) (level + 1) = [] := by rw [dumpElems]
      have hsw : skipWs ('\n' :: (indentChars level ++ (']' :: rest))) = ']' :: rest := by
        rw [skipWs_nl_indent, skipWs_cons_not_ws (by decide)]
      simp [hde, hsw]
    | cons y ys =>
      have hkeys' : jsonKeysNodup y = true ∧ jsonElemsKeysNodup ys = true := by
        rw [jsonElemsKeysNodup] at hkxs
        simpa using hkxs
      rw [elemsFuel] at hfuel
      have hrec := parseElems_dump fuel y ys (acc ++ [x]) ('\n' :: indentChars (level + 1))
        level rest (by have := jfuel_pos x; omega) (nl_indent_all_ws _) hrest
        hkeys'.1 hkeys'.2
      have hde : dumpElems (y :: ys) (level + 1) = ',' :: ('\n' :: (indentChars (level + 1)
          ++ dumpVal y (level + 1) ++ dumpElems ys (level + 1))) := by rw [dumpElems]
      have hsw : ∀ X : List Char, skipWs (',' :: X) = ',' :: X := fun X =>
        skipWs_cons_not_ws (by decide) X
      simp only [hde, List.cons_append, List.append_assoc]
      simp [hsw]
      simpa only [List.append_assoc, List.cons_append, List.nil_append,
        List.singleton_append] using hrec

theorem parsePairs_dump : ∀ (fuel : Nat) (p : String × Json) (ps : List (String × Json))
    (acc : List (String × Json)) (ws₀ : List Char) (level : Nat) (rest : List Char),
    1 + jfuel p.2 + pairsFuel ps ≤ fuel → ws₀.all jsonWs = true → delimOk rest = true →
    jsonKeysNodup p.2 = true → jsonPairsKeysNodup ps = true →
    parsePairs fuel (ws₀ ++ dumpPair p (level + 1) ++ (dumpPairs ps (level + 1) ++
      ('\n' :: (indentChars level ++ ('\x7d' :: rest))))) acc = some (acc ++ p :: ps, rest)
  | 0, p, ps, acc, ws₀, level, rest => by
    intro hfuel _ _ _ _
    exact absurd hfuel (by omega)
  | fuel + 1, ⟨k, v⟩, ps, acc, ws₀, level, rest => by
    intro hfuel hws hrest hkv hkps
    have hfuel' : 1 + jfuel v + pairsFuel ps ≤ fuel + 1 := hfuel
    have hTAIL : delimOk (dumpPairs ps (level + 1) ++
        ('\n' :: (indentChars level ++ ('\x7d' :: rest)))) = true := by
      cases ps with
      | nil => rw [dumpPairs]; rfl
      | cons q qs => rw [dumpPairs]; rfl
    rw [parsePairs.eq_2, List.append_assoc, skipWs_append_ws ws₀ hws, dumpPair, encodeString]
    simp only [List.cons_append, List.append_assoc, List.nil_append]
    rw [skipWs_cons_not_ws (by decide)]
    have hkey := parseStringBody_escapeChars k.data
      (':' :: (' ' :: (dumpVal v (level + 1) ++ (dumpPairs ps (level + 1) ++
        ('\n' :: (indentChars level ++ ('\x7d' :: rest)))))))
    simp only [hkey]
    rw [skipWs_cons_not_ws (by decide)]
    have hpv := parseValue_dump fuel v [' '] (level + 1)
      (dumpPairs ps (level + 1) ++ ('\n' :: (indentChars level ++ ('\x7d' :: rest))))
      (by omega) (by decide) hTAIL hkv
    simp only [List.cons_append, List.append_assoc, List.nil_append] at hpv
    simp only [hpv]
    have hmk : String.mk k.data = k := rfl
    cases ps with
    | nil =>
      have hdp : dumpPairs ([] : List (String × Json)) (level + 1) = [] := by
        rw [dumpPairs]
      have hsw : skipWs ('\n' :: (indentChars level ++ ('\x7d' :: rest)))
          = '\x7d' :: rest := by
        rw [skipWs_nl_indent, skipWs_cons_not_ws (by decide)]
      simp [hdp, hsw, hmk]
    | cons q qs =>
      have hkeys' : jsonKeysNodup q.2 = true ∧ jsonPairsKeysNodup qs = true := by
        rw [jsonPairsKeysNodup] at hkps
        simpa using hkps
      rw [pairsFuel] at hfuel'
      have hrec := parsePairs_dump fuel q qs (acc ++ [(k, v)]) ('\n' :: indentChars (level + 1))
        level rest (by have := jfuel_pos v; omega) (nl_indent_all_ws _) hrest
        hkeys'.1 hkeys'.2
      have hdp : dumpPairs (q :: qs) (level + 1) = ',' :: ('\n' :: (indentChars (level + 1)
          ++ dumpPair q (level + 1) ++ dumpPairs qs (level + 1))) := by rw [dumpPairs]
      have hsw : ∀ X : List Char, skipWs (',' :: X) = ',' :: X := fun X =>
        skipWs_cons_not_ws (by decide) X
      simp only [hdp, List.cons_append, List.append_assoc]
      simp [hsw, hmk]
      simpa only [List.append_assoc, List.cons_append, List.nil_append,
        List.singleton_append] using hrec

end

/-- Claim C9: persisting a structured result with `guardar_datos_extraidos`
and decoding the written text with strict JSON decoding reproduces an equal
value — array order included, since equality of `Json` values is structural.
The hypothesis asks that every object in the value have pairwise distinct
keys, which holds of everything the pipeline persists: its records come from
`json.loads`, and a Python dict cannot hold a key twice. -/
theorem c9_roundtrip (j : Json) (h : jsonKeysNodup j = true) :
    json_loads (guardar_datos_extraidos j) = some j := by
  unfold guardar_datos_extraidos json_dump json_loads
  have hdata : (String.mk (dumpVal j 0)).data = dumpVal j 0 := rfl
  rw [hdata]
  have hfuel : jfuel j ≤ (dumpVal j 0).length + 1 :=
    le_trans (jfuel_le_dump j 0) (by omega)
  have hmain := parseValue_dump ((dumpVal j 0).length + 1) j [] 0 [] hfuel rfl rfl h
  simp only [List.nil_append, List.append_nil] at hmain
  rw [hmain]
  rfl

/-- Witness for `c9_roundtrip` at the spec's end-to-end example record. -/
theorem c9_roundtrip_witness :
    json_loads (guardar_datos_extraidos resultado_ejemplo) = some resultado_ejemplo :=
  c9_roundtrip resultado_ejemplo
    (by simp [resultado_ejemplo, jsonKeysNodup, jsonElemsKeysNodup, jsonPairsKeysNodup,
      distinctKeys])

end DataExtraction
